import Mathlib

/-!
Verification of the search-quality ranking and filtering pipeline of the
hot-take generator backend.

The development shallowly embeds the pure core of
`backend/app/services/search_quality.py`, the ranking / formatting steps of
`backend/app/services/news_search_service.py`, and the recency filter and
formatter of `backend/app/services/web_search_service.py`.

Modelling conventions:
* Python `float` arithmetic is modelled by exact rational arithmetic (`ℚ`);
  every constant in the source (0.08, 0.12, 0.35, ...) is decimal-exact.
* Python `datetime` values are modelled by `PyDateTime`: a wall-clock value
  in seconds together with an optional UTC offset (`none` models a naive
  datetime).  `datetime.now(timezone.utc)` becomes an explicit `now : ℚ`
  (its UTC instant) passed as a parameter.
* Python dict records are modelled by the `Record` structure; `dict.get`
  with a default becomes the structure's default field value, and the
  transient keys `_quality_score` / `_domain` become `Option` fields.
* Python `sorted` / `list.sort` is the unique stable sort for the given
  total preorder; it is modelled by `List.mergeSort`, which is stable.
-/

/-- Python `datetime`: a wall-clock value in seconds (fractional seconds
allowed) plus an optional UTC offset in seconds.  `tzOffset = none` models a
timezone-naive datetime; `tzOffset = some 0` models an aware UTC datetime. -/
structure PyDateTime where
  wall : ℚ
  tzOffset : Option ℤ
deriving DecidableEq

/-- The UTC instant of a datetime, reading a naive datetime as UTC
(`dt.replace(tzinfo=timezone.utc)` for naive values, `dt.astimezone(timezone.utc)`
for aware values agree with this). -/
def PyDateTime.utc (d : PyDateTime) : ℚ := d.wall - ((d.tzOffset.getD 0 : ℤ) : ℚ)

/-- The unified record shape flowing through the pipeline
(`SearchRecord` of the spec): a Python dict whose absent keys read as the
defaults below.  `qualityScore` models the transient `_quality_score` key and
`domainCache` the transient `_domain` key (`none` = key absent). -/
structure Record where
  title : String := ""
  snippet : String := ""
  summary : String := ""
  url : String := ""
  source : String := ""
  published : Option PyDateTime := none
  qualityScore : Option ℚ := none
  domainCache : Option String := none
deriving DecidableEq

/-! ### Substring machinery (Python's `in` on strings) -/

/-- Source `needle.isPrefixOf hay`-based substring test over char lists:
`hasSub hay needle = true` iff `needle` occurs contiguously in `hay`.
Models Python's `needle in hay`. -/
def hasSub (hay needle : List Char) : Bool :=
  match hay with
  | [] => needle.isEmpty
  | _ :: t => needle.isPrefixOf hay || hasSub t needle

/-- Python `needle in hay` for strings. -/
def strContains (hay needle : String) : Bool := hasSub hay.data needle.data

/-! ### Python string primitives

Modelled at the character-list level (and so executable in the kernel):
`lower` is the ASCII case map, `strip` removes leading/trailing whitespace,
slicing is `List.take`, and `replace` is modelled for the single-character
patterns the source uses. -/

/-- Python `str.lower()` (ASCII model). -/
def pyLower (s : String) : String := String.mk (s.data.map Char.toLower)

/-- Python `str.strip()` with no argument. -/
def pyStrip (s : String) : String :=
  String.mk
    (((s.data.dropWhile Char.isWhitespace).reverse.dropWhile
        Char.isWhitespace).reverse)

/-- Python slicing `s[:n]`. -/
def pyTake (s : String) (n : ℕ) : String := String.mk (s.data.take n)

/-- Python `str.replace(c, rep)` for a one-character pattern: every
occurrence is replaced. -/
def pyReplaceChar (c : Char) (rep : String) (s : String) : String :=
  String.mk (s.data.flatMap fun x => if x = c then rep.data else [x])

/-! ### Tokenizer (`search_quality.tokenize`, regex `[a-z0-9]{2,}`) -/

/-- A character matched by the token regex class `[a-z0-9]`. -/
def isTokenChar (c : Char) : Bool :=
  (('a' ≤ c) && (c ≤ 'z')) || (('0' ≤ c) && (c ≤ '9'))

/-- Maximal runs of token characters of length ≥ 2 (the non-overlapping
greedy matches of `[a-z0-9]{2,}`), accumulator reversed. -/
def tokenRunsAux : List Char → List Char → List (List Char)
  | [], acc => if 2 ≤ acc.length then [acc.reverse] else []
  | c :: cs, acc =>
    if isTokenChar c then tokenRunsAux cs (c :: acc)
    else (if 2 ≤ acc.length then [acc.reverse] else []) ++ tokenRunsAux cs []

/-- Source `tokenize(text)`: the set of lowercase alphanumeric tokens of length ≥ 2
of the lowercased text (`set(_TOKEN_RE.findall((text or "").lower()))`). -/
def tokenize (text : String) : Finset String :=
  ((tokenRunsAux (text.data.map Char.toLower) []).map fun cs => String.mk cs).toFinset

/-! ### URL normalisation (`extract_domain`, `normalize_url`)

`urllib.parse.urlparse` is external library code; it is modelled here for the
shapes the pipeline feeds it: an optional `scheme:` head (a leading run of
scheme characters up to the first `:`), then, when `//` follows, a netloc up
to the next `/`, `?` or `#`, then a path up to the next `?` or `#`. -/

/-- Characters allowed in a URL scheme after the leading letter. -/
def isSchemeChar (c : Char) : Bool :=
  c.isAlpha || c.isDigit || c = '+' || c = '-' || c = '.'

/-- Split `scheme:` off the front the way `urlsplit` does: the text before
the first `:` must be non-empty, start with a letter and consist of scheme
characters. -/
def splitScheme (cs : List Char) : List Char :=
  let before := cs.takeWhile (fun c => c ≠ ':')
  let schemeOk : Bool :=
    match before with
    | c :: rest => c.isAlpha && rest.all isSchemeChar
    | [] => false
  if decide (before.length < cs.length) && schemeOk then cs.drop (before.length + 1)
  else cs

/-- The `(netloc, path)` of `urlparse`, per the model above: query and
fragment are cut off the path, and the netloc is only read after `//`. -/
def urlparseNetlocPath (s : String) : String × String :=
  let rest := splitScheme s.data
  let (netloc, rest) :=
    match rest with
    | '/' :: '/' :: r =>
      (r.takeWhile fun c => c ≠ '/' ∧ c ≠ '?' ∧ c ≠ '#',
       r.dropWhile fun c => c ≠ '/' ∧ c ≠ '?' ∧ c ≠ '#')
    | r => ([], r)
  let path := rest.takeWhile fun c => c ≠ '?' ∧ c ≠ '#'
  (String.mk netloc, String.mk path)

/-- Source `str.removeprefix("www.")`. -/
def stripWww (s : String) : String :=
  if "www.".data.isPrefixOf s.data then String.mk (s.data.drop 4) else s

/-- Strip every trailing occurrence of `c` (`str.rstrip("/")`). -/
def rstripChar (s : String) (c : Char) : String :=
  String.mk ((s.data.reverse.dropWhile fun x => x = c).reverse)

/-- Source `extract_domain(value)`: empty input gives `""`; otherwise trim and
lowercase, parse out the netloc when a `://` occurs, and strip `www.`. -/
def extract_domain (value : String) : String :=
  if value = "" then ""
  else
    let domain := pyLower (pyStrip value)
    let domain :=
      if strContains domain "://" then pyLower (urlparseNetlocPath domain).1
      else domain
    stripWww domain

/-- Source `normalize_url(url)`: lowercased netloc without `www.` concatenated with
the path stripped of trailing slashes; `""` for empty input. -/
def normalize_url (url : String) : String :=
  if url = "" then ""
  else
    let p := urlparseNetlocPath (pyStrip url)
    stripWww (pyLower p.1) ++ rstripChar p.2 '/'

/-! ### Domain policy (`domain_allowed`) -/

/-- Source `domain_allowed(domain, allowlist, blocklist)`. -/
def domain_allowed (domain : String) (allowlist blocklist : Finset String) : Bool :=
  let normalized := extract_domain domain
  if normalized = "" then false
  else if normalized ∈ blocklist then false
  else if allowlist ≠ ∅ ∧ normalized ∉ allowlist then false
  else true

/-! ### Deduplication (`dedupe_records`) -/

/-- The dedup key of a record:
`normalize_url(record.get("url", "")) or record.get("title", "").strip()` —
the normalised URL when it is non-empty (truthy), else the trimmed title. -/
def recordKey (r : Record) : String :=
  let nu := normalize_url r.url
  if nu ≠ "" then nu else pyStrip r.title

/-- The loop of `dedupe_records`, with the `seen` set of keys. -/
def dedupeAux : List Record → List String → List Record
  | [], _ => []
  | r :: rest, seen =>
    let key := recordKey r
    if key = "" ∨ key ∈ seen then dedupeAux rest seen
    else r :: dedupeAux rest (key :: seen)

/-- Source `dedupe_records(records)`. -/
def dedupe_records (records : List Record) : List Record := dedupeAux records []

/-! ### Recency window (`apply_recency_window`) -/

/-- Source `apply_recency_window(records, days_back)` with the `published` date key;
`now` is the UTC instant of `datetime.now(timezone.utc)`.  A naive timestamp
is reinterpreted as UTC (`replace(tzinfo=timezone.utc)`) before the
comparison against the cutoff. -/
def apply_recency_window (now : ℚ) (records : List Record) (days_back : ℤ) :
    List Record :=
  if days_back ≤ 0 then records
  else
    let cutoff : ℚ := now - (days_back : ℚ) * 86400
    records.filter fun r =>
      match r.published with
      | none => true
      | some p =>
        let pu := if p.tzOffset = none then { p with tzOffset := some 0 } else p
        decide (cutoff ≤ pu.utc)

/-! ### Scorer (`_recency_score`, `score_record`) -/

/-- Source `_recency_score(published, max_days)`: 0.12 with no timestamp, else the
linear decay on the non-negative age in days, clamped to 0 from
`age_days ≥ max_days` on. -/
def recencyScore (now : ℚ) (published : Option PyDateTime) (max_days : ℤ) : ℚ :=
  match published with
  | none => 0.12
  | some p =>
    let ageDays : ℚ := max 0 ((now - p.utc) / 86400)
    if (max_days : ℚ) ≤ ageDays then 0
    else max 0 (1 - ageDays / (max_days : ℚ))

/-- Source `record.get("snippet", "") or record.get("summary", "")`. -/
def effectiveSnippet (r : Record) : String :=
  if r.snippet ≠ "" then r.snippet else r.summary

/-- Source `record.get("source") or record.get("url", "")`. -/
def sourceOrUrl (r : Record) : String :=
  if r.source ≠ "" then r.source else r.url

/-- The topic-token overlap of a record
(`len(topic_tokens & tokenize(f"{title} {snippet}"))`). -/
def overlapCount (topicTokens : Finset String) (r : Record) : ℕ :=
  (topicTokens ∩ tokenize (r.title ++ " " ++ effectiveSnippet r)).card

/-- The exact-phrase bonus of `score_record` (lines 211–213): 0.08 when the
trimmed lowercased topic is non-empty (truthy) and occurs in the lowercased
title. -/
def exactPhraseBoost (topicText title : String) : ℚ :=
  let titleL := pyLower title
  let topicL := pyLower (pyStrip topicText)
  if topicL ≠ "" ∧ strContains titleL topicL then 0.08 else 0

/-- Source `score_record(record, ...)`. -/
def score_record (now : ℚ) (r : Record) (topicTokens : Finset String)
    (topicText : String) (trustedDomains : Finset String) (recencyDays : ℤ)
    (strictQualityMode : Bool)
    (relevanceWeight recencyWeight snippetWeight domainWeight
      strictNoOverlapPenalty : ℚ) : ℚ :=
  let domain := extract_domain (sourceOrUrl r)
  let overlap := overlapCount topicTokens r
  let relevanceScore : ℚ :=
    min 1 ((overlap : ℚ) / ((max 1 (min topicTokens.card 6) : ℕ) : ℚ))
  let boost := exactPhraseBoost topicText r.title
  let snippetLen := (pyStrip (effectiveSnippet r)).length
  let snippetQuality : ℚ :=
    if 100 ≤ snippetLen then 1 else if 50 ≤ snippetLen then 0.5 else 0
  let domainQuality : ℚ := if domain ∈ trustedDomains then 0.35 else 0.15
  let recency := recencyScore now r.published (max 7 recencyDays)
  let total :=
    relevanceScore * relevanceWeight + recency * recencyWeight +
      snippetQuality * snippetWeight + domainQuality * domainWeight + boost
  if strictQualityMode ∧ overlap = 0 then total - strictNoOverlapPenalty
  else total

/-! ### Civil-calendar arithmetic

Standard civil-from-days / days-from-civil conversions (floor division),
used to model `datetime` construction and `strftime("%Y-%m-%d")`. -/

/-- Days from 1970-01-01 of the civil date `(y, m, d)`. -/
def daysFromCivil (y m d : ℤ) : ℤ :=
  let y := y - (if m ≤ 2 then 1 else 0)
  let era := Int.fdiv y 400
  let yoe := y - era * 400
  let mp := m + (if 2 < m then -3 else 9)
  let doy := Int.fdiv (153 * mp + 2) 5 + d - 1
  let doe := yoe * 365 + Int.fdiv yoe 4 - Int.fdiv yoe 100 + doy
  era * 146097 + doe - 719468

/-- The civil date `(y, m, d)` of a day count from 1970-01-01. -/
def civilFromDays (z : ℤ) : ℤ × ℤ × ℤ :=
  let z := z + 719468
  let era := Int.fdiv z 146097
  let doe := z - era * 146097
  let yoe :=
    Int.fdiv (doe - Int.fdiv doe 1460 + Int.fdiv doe 36524 - Int.fdiv doe 146096) 365
  let y := yoe + era * 400
  let doy := doe - (365 * yoe + Int.fdiv yoe 4 - Int.fdiv yoe 100)
  let mp := Int.fdiv (5 * doy + 2) 153
  let d := doy - Int.fdiv (153 * mp + 2) 5 + 1
  let m := mp + (if mp < 10 then 3 else -9)
  (y + (if m ≤ 2 then 1 else 0), m, d)

/-- Gregorian leap year. -/
def isLeapYear (y : ℤ) : Bool :=
  Int.emod y 4 = 0 && (Int.emod y 100 ≠ 0 || Int.emod y 400 = 0)

/-- Number of days of month `m` of year `y`. -/
def daysInMonth (y m : ℤ) : ℤ :=
  if m = 2 then (if isLeapYear y then 29 else 28)
  else if m = 4 ∨ m = 6 ∨ m = 9 ∨ m = 11 then 30
  else 31

/-! ### Digit parsing helpers -/

/-- ASCII digit test (Python `\d` restricted to ASCII). -/
def isDigitCh (c : Char) : Bool := ('0' ≤ c) && (c ≤ '9')

/-- Numeric value of an ASCII digit. -/
def digitVal (c : Char) : ℕ := c.toNat - 48

/-- The number denoted by a digit run. -/
def digitsToNat (ds : List Char) : ℕ :=
  ds.foldl (fun a c => a * 10 + digitVal c) 0

/-- Read exactly `n` digits; fail otherwise. -/
def parseFixedDigits (n : ℕ) (cs : List Char) : Option (ℕ × List Char) :=
  let ds := cs.take n
  if decide (ds.length = n) && ds.all isDigitCh then
    some (digitsToNat ds, cs.drop n)
  else none

/-- Read a literal character. -/
def parseLit (c : Char) (cs : List Char) : Option (List Char) :=
  match cs with
  | x :: rest => if x = c then some rest else none
  | [] => none

/-! ### `datetime.fromisoformat` model

Modelled for the extended ISO-8601 shapes the repository feeds it (the
`publishedAt` strings of the news provider and the literal `YYYY-MM-DD`
dates): zero-padded `YYYY-MM-DD`, an optional time part introduced by `T` or
a space with `HH`, `HH:MM`, `HH:MM:SS` and an optional fractional-second
field of 1–6 digits, and an optional UTC offset `±HH:MM`.  Field ranges are
validated exactly as `datetime` construction does. -/

/-- Parse the optional fractional-second part (`.ffffff` or `,ffffff`). -/
def parseIsoFrac (cs : List Char) : Option (ℚ × List Char) :=
  match cs with
  | sep :: rest =>
    if sep = '.' ∨ sep = ',' then
      let ds := rest.takeWhile isDigitCh
      if decide (1 ≤ ds.length) && decide (ds.length ≤ 6) then
        some ((digitsToNat ds : ℚ) / ((10 : ℚ) ^ ds.length), rest.drop ds.length)
      else none
    else some (0, cs)
  | [] => some (0, cs)

/-- Parse the time-of-day part `HH[:MM[:SS[.ffffff]]]`. -/
def parseIsoTime (cs : List Char) : Option (ℚ × List Char) := do
  let (h, cs) ← parseFixedDigits 2 cs
  if 23 < h then none else
  match parseLit ':' cs with
  | none => some ((h : ℚ) * 3600, cs)
  | some cs => do
    let (mi, cs) ← parseFixedDigits 2 cs
    if 59 < mi then none else
    match parseLit ':' cs with
    | none => some ((h : ℚ) * 3600 + (mi : ℚ) * 60, cs)
    | some cs => do
      let (s, cs) ← parseFixedDigits 2 cs
      if 59 < s then none else
      let (frac, cs) ← parseIsoFrac cs
      some ((h : ℚ) * 3600 + (mi : ℚ) * 60 + (s : ℚ) + frac, cs)

/-- Parse the optional UTC offset `±HH:MM`. -/
def parseIsoOffset (cs : List Char) : Option (Option ℤ × List Char) :=
  match cs with
  | sign :: rest =>
    if sign = '+' ∨ sign = '-' then do
      let (oh, rest) ← parseFixedDigits 2 rest
      let rest ← parseLit ':' rest
      let (om, rest) ← parseFixedDigits 2 rest
      if 23 < oh ∨ 59 < om then none
      else
        let secs : ℤ := (oh : ℤ) * 3600 + (om : ℤ) * 60
        some (some (if sign = '-' then -secs else secs), rest)
    else some (none, cs)
  | [] => some (none, cs)

/-- Source `datetime.fromisoformat` (modelled; see above). -/
def fromisoformat (s : String) : Option PyDateTime := do
  let cs := s.data
  let (y, cs) ← parseFixedDigits 4 cs
  let cs ← parseLit '-' cs
  let (m, cs) ← parseFixedDigits 2 cs
  let cs ← parseLit '-' cs
  let (d, cs) ← parseFixedDigits 2 cs
  if y = 0 ∨ m = 0 ∨ 12 < m ∨ d = 0 ∨ daysInMonth y m < (d : ℤ) then none
  else
    let day : ℚ := ((daysFromCivil y m d : ℤ) : ℚ) * 86400
    match cs with
    | [] => some { wall := day, tzOffset := none }
    | sep :: rest =>
      if sep = 'T' ∨ sep = ' ' then do
        let (secs, rest) ← parseIsoTime rest
        let (off, rest) ← parseIsoOffset rest
        if rest = [] then some { wall := day + secs, tzOffset := off } else none
      else none

/-! ### The relative-time regex `(\d+)\s+(minute|hour|day|week|month|year)s?\s+ago`

`re.search` with `IGNORECASE`: leftmost match wins; `\d+` is greedy (and a
maximal digit run is equivalent here, since `\s` cannot match a digit). -/

/-- The six unit words, in the alternation order of the pattern. -/
def relUnits : List String := ["minute", "hour", "day", "week", "month", "year"]

/-- Case-insensitive literal-prefix test. -/
def ciPrefixAt (pat : String) (cs : List Char) : Bool :=
  (cs.take pat.length).map Char.toLower = pat.data

/-- Try to match the relative pattern starting exactly at `cs`. -/
def matchRelAt (cs : List Char) : Option (ℕ × String) := do
  let ds := cs.takeWhile isDigitCh
  if ds = [] then none else
  let cs := cs.drop ds.length
  let ws := cs.takeWhile Char.isWhitespace
  if ws = [] then none else
  let cs := cs.drop ws.length
  let unit ← relUnits.find? fun u => ciPrefixAt u cs
  let cs := cs.drop unit.length
  let cs := match cs with
    | 's' :: rest => rest
    | 'S' :: rest => rest
    | rest => rest
  let ws2 := cs.takeWhile Char.isWhitespace
  if ws2 = [] then none else
  let cs := cs.drop ws2.length
  if ciPrefixAt "ago" cs then some (digitsToNat ds, unit) else none

/-- Source `re.search`: try every start position left to right. -/
def relSearch : List Char → Option (ℕ × String)
  | [] => none
  | c :: cs =>
    match matchRelAt (c :: cs) with
    | some r => some r
    | none => relSearch cs

/-- The length, in seconds, of one relative-time unit: month counts as 30
days and year as 365 days. -/
def relUnitSeconds (unit : String) : ℚ :=
  if unit = "minute" then 60
  else if unit = "hour" then 3600
  else if unit = "day" then 86400
  else if unit = "week" then 604800
  else if unit = "month" then 2592000
  else if unit = "year" then 31536000
  else 0

/-- Source `now - timedelta(seconds := s)` on an (aware or naive) datetime. -/
def dtSubSeconds (d : PyDateTime) (s : ℚ) : PyDateTime :=
  { d with wall := d.wall - s }

/-! ### `datetime.strptime` models for the three literal formats

Python's `strptime` matches the whole string, is case-insensitive on month
names, lets a whitespace run in the format match any whitespace run, accepts
one- or two-digit `%d`/`%m`, exactly four digits for `%Y`, and validates the
day against the month when the `datetime` is constructed. -/

/-- Abbreviated month names, lowercased (`%b`). -/
def monthAbbrs : List String :=
  ["jan", "feb", "mar", "apr", "may", "jun",
   "jul", "aug", "sep", "oct", "nov", "dec"]

/-- Full month names, lowercased (`%B`). -/
def monthFulls : List String :=
  ["january", "february", "march", "april", "may", "june", "july",
   "august", "september", "october", "november", "december"]

/-- Find a month name (case-insensitively) from a candidate list, returning
its 1-based number and the remaining input. -/
def parseMonthName (names : List String) (cs : List Char) : Option (ℕ × List Char) :=
  match names.findIdx? (fun p => ciPrefixAt p cs) with
  | some i =>
    match names.get? i with
    | some p => some (i + 1, cs.drop p.length)
    | none => none
  | none => none

/-- One or two digits with a value bound (`%d` / `%m`); the two-digit read is
preferred and the one-digit read is the backtracking fallback, expressed by
returning both candidates in order. -/
def parseOneTwoDigits (lo hi : ℕ) (cs : List Char) : List (ℕ × List Char) :=
  let two :=
    match cs with
    | a :: b :: rest =>
      if isDigitCh a && isDigitCh b then
        let v := digitVal a * 10 + digitVal b
        if lo ≤ v ∧ v ≤ hi then [(v, rest)] else []
      else []
    | _ => []
  let one :=
    match cs with
    | a :: rest =>
      if isDigitCh a then
        let v := digitVal a
        if lo ≤ v ∧ v ≤ hi ∧ v ≠ 0 then [(v, rest)] else []
      else []
    | _ => []
  two ++ one

/-- A whitespace run (a whitespace character in a `strptime` format). -/
def parseWs (cs : List Char) : Option (List Char) :=
  let ws := cs.takeWhile Char.isWhitespace
  if ws = [] then none else some (cs.drop ws.length)

/-- Validate and build the midnight naive datetime `datetime(y, m, d)`. -/
def mkDateOnly (y m d : ℕ) : Option PyDateTime :=
  if y = 0 ∨ m = 0 ∨ 12 < m ∨ d = 0 ∨ daysInMonth y m < (d : ℤ) then none
  else some { wall := ((daysFromCivil y m d : ℤ) : ℚ) * 86400, tzOffset := none }

/-- Source `datetime.strptime(raw, "%b %d, %Y")` / `"%B %d, %Y"`, by month-name
candidate list. -/
def strptimeMonthName (names : List String) (raw : String) : Option PyDateTime := do
  let cs := raw.data
  let (m, cs) ← parseMonthName names cs
  let cs ← parseWs cs
  (parseOneTwoDigits 1 31 cs).firstM fun (d, cs) => do
    let cs ← parseLit ',' cs
    let cs ← parseWs cs
    let (y, cs) ← parseFixedDigits 4 cs
    if cs = [] then mkDateOnly y m d else none

/-- Source `datetime.strptime(raw, "%Y-%m-%d")`. -/
def strptimeYmd (raw : String) : Option PyDateTime := do
  let cs := raw.data
  let (y, cs) ← parseFixedDigits 4 cs
  let cs ← parseLit '-' cs
  (parseOneTwoDigits 1 12 cs).firstM fun (m, cs) => do
    let cs ← parseLit '-' cs
    (parseOneTwoDigits 1 31 cs).firstM fun (d, cs) =>
      if cs = [] then mkDateOnly y m d else none

/-- Source `parsed.replace(tzinfo=timezone.utc)`. -/
def setUtc (d : PyDateTime) : PyDateTime := { d with tzOffset := some 0 }

/-- Source `parse_date_string(value, now)`: ISO-8601 first (`Z` replaced by
`+00:00`), then the relative `"<N> <unit> ago"` pattern, then the literal
formats `"%b %d, %Y"`, `"%B %d, %Y"`, `"%Y-%m-%d"` (each made UTC-aware),
else `none`. -/
def parse_date_string (value : Option String) (now : PyDateTime) :
    Option PyDateTime :=
  match value with
  | none => none
  | some v =>
    if v = "" then none
    else
      let raw := pyStrip v
      match fromisoformat (pyReplaceChar 'Z' "+00:00" raw) with
      | some d => some d
      | none =>
        match relSearch raw.data with
        | some (count, unit) =>
          some (dtSubSeconds now ((count : ℚ) * relUnitSeconds unit))
        | none =>
          match strptimeMonthName monthAbbrs raw with
          | some d => some (setUtc d)
          | none =>
            match strptimeMonthName monthFulls raw with
            | some d => some (setUtc d)
            | none =>
              match strptimeYmd raw with
              | some d => some (setUtc d)
              | none => none

/-! ### Ranking (`news_search_service._rank_and_filter_articles`, lines
200–209)

`sorted(recent, key=lambda r: (r.get("_quality_score", 0.0),
bool(r.get("published"))), reverse=True)` is the stable descending sort on
the lexicographic pair key; CPython's sort is stable and `reverse=True`
preserves the original order of key-equal elements, so it is
`List.mergeSort` with the "key not smaller than" comparison. -/

/-- The Python sort key `(r.get("_quality_score", 0.0), bool(r.get("published")))`. -/
def pyKey (r : Record) : ℚ × Bool := (r.qualityScore.getD 0, r.published.isSome)

/-- Strict lexicographic order on the pair key (`False < True` on booleans). -/
def pairLt (a b : ℚ × Bool) : Prop :=
  a.1 < b.1 ∨ (a.1 = b.1 ∧ a.2 = false ∧ b.2 = true)

instance (a b : ℚ × Bool) : Decidable (pairLt a b) := by
  unfold pairLt; infer_instance

/-- The stable-sort comparison for the descending sort: `a` may precede `b`
iff the key of `a` is not lexicographically smaller than the key of `b`. -/
def rankLe (a b : Record) : Bool := !(decide (pairLt (pyKey a) (pyKey b)))

/-- Source `item.pop("_quality_score", None); item.pop("_domain", None)`. -/
def stripTransient (r : Record) : Record :=
  { r with qualityScore := none, domainCache := none }

/-- The ranking step: stable descending sort on the pair key, truncation to
`max_results`, transient fields stripped. -/
def rank_and_truncate (records : List Record) (maxResults : ℕ) : List Record :=
  ((records.mergeSort rankLe).take maxResults).map stripTransient

/-! ### News pipeline (`news_search_service._rank_and_filter_articles`) -/

/-- The per-article filter of `_rank_and_filter_articles`: drop records
missing title or url, apply the domain policy (caching `_domain`), and in
strict mode require a trimmed summary of length ≥ 90 and non-zero topic
overlap. -/
def newsFilterStep (topicTokens : Finset String) (strict : Bool)
    (allowlist blocklist : Finset String) (article : Record) : Option Record :=
  let title := pyStrip article.title
  let url := pyStrip article.url
  if title = "" ∨ url = "" then none
  else
    let domain := extract_domain url
    if !(domain_allowed domain allowlist blocklist) then none
    else
      let article := { article with domainCache := some domain }
      if strict then
        let summary := pyStrip article.summary
        let overlap := (topicTokens ∩ tokenize (title ++ " " ++ summary)).card
        if summary.length < 90 ∨ overlap = 0 then none else some article
      else some article

/-- Attach `_quality_score` to an item of the surviving list (lines
188–198): score a copy whose `source` is the resolved domain. -/
def newsScoreStep (now : ℚ) (topicTokens : Finset String) (topic : String)
    (trusted : Finset String) (daysBack : ℤ) (strict : Bool)
    (wRel wRec wSnip wDom pen : ℚ) (item : Record) : Record :=
  let domain :=
    match item.domainCache with
    | some d => if d ≠ "" then d else extract_domain item.url
    | none => extract_domain item.url
  { item with
    qualityScore := some (score_record now { item with source := domain }
      topicTokens topic trusted (max 7 daysBack) strict wRel wRec wSnip wDom pen) }

/-- Source `_rank_and_filter_articles(topic, articles, max_results, days_back,
strict_quality_mode)`. -/
def rankAndFilterArticles (now : ℚ) (topic : String) (articles : List Record)
    (maxResults : ℕ) (daysBack : ℤ) (strict : Bool)
    (allowlist blocklist trusted : Finset String)
    (wRel wRec wSnip wDom pen : ℚ) : List Record :=
  let topicTokens := tokenize topic
  let filtered := articles.filterMap
    (newsFilterStep topicTokens strict allowlist blocklist)
  let deduped := dedupe_records filtered
  let recent :=
    if 0 < daysBack then apply_recency_window now deduped (max 1 daysBack)
    else deduped
  let scored := recent.map
    (newsScoreStep now topicTokens topic trusted daysBack strict
      wRel wRec wSnip wDom pen)
  rank_and_truncate scored maxResults

/-! ### News provider adapter boundary (`NewsApiClient.get_everything`) -/

/-- One raw article of a NewsAPI response (absent JSON keys read as `""`). -/
structure NewsApiArticle where
  title : String := ""
  description : String := ""
  content : String := ""
  url : String := ""
  publishedAt : String := ""
  sourceName : String := ""

/-- A NewsAPI response: a status string and the raw article list. -/
structure NewsApiResponse where
  status : String := "ok"
  articles : List NewsApiArticle := []

/-- Parse one raw article into a record (lines 100–126): ISO-parse
`publishedAt` (a failure leaves it absent, after a warning), and use the
description, or else the content, as the summary. -/
def parseNewsArticle (a : NewsApiArticle) : Record :=
  let published :=
    if a.publishedAt ≠ "" then fromisoformat (pyReplaceChar 'Z' "+00:00" a.publishedAt)
    else none
  { title := a.title
    summary := if a.description ≠ "" then a.description else a.content
    url := a.url
    published := published
    source := a.sourceName }

/-- Source `_fetch_news_api_articles`: the provider call's outcome is passed in as
an `Except` (a raised exception is caught by the method's own handler and
becomes `[]`); a non-`"ok"` status becomes `[]`; otherwise the parsed
articles are ranked and filtered. -/
def fetchNewsApiArticles (now : ℚ) (providerResult : Except String NewsApiResponse)
    (topic : String) (maxResults : ℕ) (daysBack : ℤ) (strict : Bool)
    (allowlist blocklist trusted : Finset String)
    (wRel wRec wSnip wDom pen : ℚ) : List Record :=
  match providerResult with
  | .error _ => []
  | .ok resp =>
    if resp.status ≠ "ok" then []
    else
      rankAndFilterArticles now topic (resp.articles.map parseNewsArticle)
        maxResults daysBack strict allowlist blocklist trusted
        wRel wRec wSnip wDom pen

/-- Source `search_recent_news` of the news service: with no configured client
(missing API key) the result is `[]` without the provider outcome being
looked at; any exception from the fetch is caught and becomes `[]`. -/
def searchRecentNews (now : ℚ) (clientConfigured : Bool)
    (providerResult : Except String NewsApiResponse)
    (topic : String) (maxResults : ℕ) (daysBack : ℤ) (strict : Bool)
    (allowlist blocklist trusted : Finset String)
    (wRel wRec wSnip wDom pen : ℚ) : List Record :=
  if !clientConfigured then []
  else
    fetchNewsApiArticles now providerResult topic maxResults daysBack strict
      allowlist blocklist trusted wRel wRec wSnip wDom pen

/-! ### Web path (`web_search_service`)

Every timestamp produced by `_parse_entry_datetime` is aware UTC, so the
datetime comparisons on this path are instant comparisons. -/

/-- The UTC instant of `datetime.min.replace(tzinfo=timezone.utc)`
(0001-01-01 00:00:00 UTC), the fallback sort key for a missing date. -/
def dtMinInstant : ℚ := ((daysFromCivil 1 1 1 : ℤ) : ℚ) * 86400

/-- The sort key of the web path's date-descending sorts:
`x.get("published") or datetime.min.replace(tzinfo=timezone.utc)`. -/
def webSortKey (r : Record) : ℚ :=
  match r.published with
  | some p => p.utc
  | none => dtMinInstant

/-- Stable-descending comparison by `webSortKey`. -/
def webSortLe (a b : Record) : Bool := decide (webSortKey b ≤ webSortKey a)

/-- The keep-condition of `_filter_recent_articles`:
`a.get("published") and a["published"] >= cutoff` with a seven-day cutoff —
a record with no timestamp is dropped. -/
def webRecentPred (now : ℚ) (r : Record) : Bool :=
  match r.published with
  | none => false
  | some p => decide (now - 7 * 86400 ≤ p.utc)

/-- Source `_filter_recent_articles(articles)` (lines 246–258): keep only records
with a timestamp within the last seven days, newest first. -/
def filterRecentArticles (now : ℚ) (articles : List Record) : List Record :=
  (articles.filter (webRecentPred now)).mergeSort webSortLe

/-! ### Formatters (`format_news_context` of both services) -/

/-- Left-pad a numeral with zeros. -/
def padZeros (w : ℕ) (s : String) : String :=
  if s.length < w then String.mk (List.replicate (w - s.length) '0') ++ s else s

/-- Source `dt.strftime("%Y-%m-%d")`, from the datetime's own (wall-clock) fields. -/
def strftimeYmd (d : PyDateTime) : String :=
  let day := Int.floor (d.wall / 86400)
  let c := civilFromDays day
  padZeros 4 (toString c.1) ++ "-" ++ padZeros 2 (toString c.2.1) ++ "-" ++
    padZeros 2 (toString c.2.2)

/-- Source `enumerate(articles, 1)`. -/
def enumFrom (n : ℕ) : List α → List (ℕ × α)
  | [] => []
  | a :: rest => (n, a) :: enumFrom (n + 1) rest

/-- Source `"\n".join(parts)` (Python `str.join`). -/
def joinSep (sep : String) : List String → String
  | [] => ""
  | [p] => p
  | p :: q :: rest => p ++ sep ++ joinSep sep (q :: rest)

/-- One article block of the news formatter (lines 218–239): the summary is
truncated to its first 197 characters plus `"..."` when longer than 200
characters; source, date, summary and URL lines are conditional. -/
def newsArticleText (idx : ℕ) (a : Record) : String :=
  let summary :=
    if 200 < a.summary.length then pyTake a.summary 197 ++ "..." else a.summary
  "\n" ++ toString idx ++ ". " ++ a.title ++
    (if a.source ≠ "" then " (" ++ a.source ++ ")" else "") ++
    (match a.published with
     | some p => " - " ++ strftimeYmd p
     | none => "") ++
    (if summary ≠ "" then "\n   " ++ summary else "") ++
    (if a.url ≠ "" then "\n   URL: " ++ a.url else "")

/-- Source `format_news_context` of the news service (lines 211–241). -/
def format_news_context (articles : List Record) : String :=
  if articles = [] then "No recent news found on this topic."
  else
    joinSep "\n" ("Recent news and headlines:" ::
      (enumFrom 1 articles).map fun p => newsArticleText p.1 p.2)

/-- The lines one article contributes to the web formatter (lines 301–312):
a non-empty summary always becomes its first 200 characters followed by
`"..."`; the published line renders the UTC-converted date. -/
def webArticleLines (idx : ℕ) (a : Record) : List String :=
  [toString idx ++ ". " ++ a.title] ++
    (if a.summary ≠ "" then ["   Summary: " ++ pyTake a.summary 200 ++ "..."]
     else []) ++
    ["   Source: " ++ a.source] ++
    (match a.published with
     | some p => ["   Published: " ++ strftimeYmd { wall := p.utc, tzOffset := some 0 }]
     | none => []) ++
    (if a.url ≠ "" then ["   URL: " ++ a.url] else []) ++
    [""]

/-- Source `format_news_context` of the web service (lines 295–313). -/
def webFormatNewsContext (articles : List Record) : String :=
  if articles = [] then "No recent news found for this topic."
  else
    joinSep "\n" (["Recent news and headlines:", ""] ++
      (enumFrom 1 articles).flatMap fun p => webArticleLines p.1 p.2)

/-! ### Claim-side definitions

These follow the words of the spec / claims (not the source); each is
compared against the corresponding source-side definition above. -/

/-- Snippet quality as claim C1 words it: 0 for trimmed length < 50, 0.5
for 50–99, 1.0 for ≥ 100. -/
def claimSnippetQuality (len : ℕ) : ℚ :=
  if len < 50 then 0 else if len ≤ 99 then 0.5 else 1

/-- Recency as claim C1 words it: 0.12 with no timestamp, else
`max(0, 1 - age_days / max(7, recency_days))`, clamped to 0 once the age
reaches that maximum (the age in days is non-negative). -/
def claimRecency (now : ℚ) (published : Option PyDateTime) (recencyDays : ℤ) : ℚ :=
  match published with
  | none => 0.12
  | some p =>
    let maxDays : ℚ := ((max 7 recencyDays : ℤ) : ℚ)
    let ageDays : ℚ := max 0 ((now - p.utc) / 86400)
    if ageDays < maxDays then max 0 (1 - ageDays / maxDays) else 0

/-- The §4.5 composite exactly as claim C1 words it.  The exact-phrase bonus
clause reads: 0.08 "when the trimmed lowercased topic string appears
verbatim as a substring of the lowercased title" — with no non-emptiness
proviso, and the empty string is a substring of every title. -/
def scoreClaimC1 (now : ℚ) (r : Record) (topicTokens : Finset String)
    (topicText : String) (trustedDomains : Finset String) (recencyDays : ℤ)
    (strict : Bool) (wRel wRec wSnip wDom pen : ℚ) : ℚ :=
  let overlap := (topicTokens ∩ tokenize (r.title ++ " " ++ effectiveSnippet r)).card
  let relevance : ℚ :=
    min 1 ((overlap : ℚ) / ((max 1 (min topicTokens.card 6) : ℕ) : ℚ))
  let snippetQ := claimSnippetQuality (pyStrip (effectiveSnippet r)).length
  let domainQ : ℚ :=
    if extract_domain (sourceOrUrl r) ∈ trustedDomains then 0.35 else 0.15
  let recency := claimRecency now r.published recencyDays
  let bonus : ℚ :=
    if strContains (pyLower r.title) (pyLower (pyStrip topicText)) then 0.08 else 0
  let total := relevance * wRel + recency * wRec + snippetQ * wSnip +
    domainQ * wDom + bonus
  if strict ∧ overlap = 0 then total - pen else total

/-- Claim C1 amended: the same composite, with the bonus awarded only for a
non-empty trimmed lowercased topic occurring in the lowercased title. -/
def scoreClaimC1Amended (now : ℚ) (r : Record) (topicTokens : Finset String)
    (topicText : String) (trustedDomains : Finset String) (recencyDays : ℤ)
    (strict : Bool) (wRel wRec wSnip wDom pen : ℚ) : ℚ :=
  let overlap := (topicTokens ∩ tokenize (r.title ++ " " ++ effectiveSnippet r)).card
  let relevance : ℚ :=
    min 1 ((overlap : ℚ) / ((max 1 (min topicTokens.card 6) : ℕ) : ℚ))
  let snippetQ := claimSnippetQuality (pyStrip (effectiveSnippet r)).length
  let domainQ : ℚ :=
    if extract_domain (sourceOrUrl r) ∈ trustedDomains then 0.35 else 0.15
  let recency := claimRecency now r.published recencyDays
  let bonus : ℚ :=
    if pyLower (pyStrip topicText) ≠ "" ∧
        strContains (pyLower r.title) (pyLower (pyStrip topicText)) then 0.08 else 0
  let total := relevance * wRel + recency * wRec + snippetQ * wSnip +
    domainQ * wDom + bonus
  if strict ∧ overlap = 0 then total - pen else total

/-- The dedup key as claim C4 words it: `normalize_url(url)` whenever a url
is present, the trimmed title only otherwise. -/
def recordKeyClaim (r : Record) : String :=
  if r.url ≠ "" then normalize_url r.url else pyStrip r.title

/-- First-wins deduplication as claim C4 words it, for a given key
function: a record with an empty key is dropped; the first record with each
key is kept and every later record with the same key is discarded. -/
def firstWinsDedupe (key : Record → String) : List Record → List Record
  | [] => []
  | r :: rest =>
    if key r = "" then firstWinsDedupe key rest
    else r :: firstWinsDedupe key (rest.filter fun x => key x ≠ key r)
termination_by l => l.length
decreasing_by
  · simp
  · exact Nat.lt_succ_of_le (List.length_filter_le _ _)

/-- The snippet rendering claim C9 asserts for both formatters: truncate to
the first 197 characters plus an ellipsis exactly when longer than 200
characters, otherwise leave unmodified. -/
def claimSummaryTrunc (s : String) : String :=
  if 200 < s.length then pyTake s 197 ++ "..." else s

/-- The web formatter as claim C9 words its snippet handling (everything
else as in the source). -/
def webArticleLinesClaim (idx : ℕ) (a : Record) : List String :=
  [toString idx ++ ". " ++ a.title] ++
    (if a.summary ≠ "" then ["   Summary: " ++ claimSummaryTrunc a.summary]
     else []) ++
    ["   Source: " ++ a.source] ++
    (match a.published with
     | some p => ["   Published: " ++ strftimeYmd { wall := p.utc, tzOffset := some 0 }]
     | none => []) ++
    (if a.url ≠ "" then ["   URL: " ++ a.url] else []) ++
    [""]

/-- The web `format_news_context` under claim C9's snippet rule. -/
def webFormatClaim (articles : List Record) : String :=
  if articles = [] then "No recent news found for this topic."
  else
    joinSep "\n" (["Recent news and headlines:", ""] ++
      (enumFrom 1 articles).flatMap fun p => webArticleLinesClaim p.1 p.2)

/-- The recency-window keep-condition as claim C5 words it: a record with no
timestamp is kept; otherwise its UTC-normalized timestamp (a naive one read
as UTC) must be at least the cutoff. -/
def claimRecencyKeep (cutoff : ℚ) (r : Record) : Bool :=
  match r.published with
  | none => true
  | some p => decide (cutoff ≤ p.utc)

/-- The news formatter's article block as claim C9 words its snippet
handling (everything else as in the source). -/
def newsArticleTextClaim (idx : ℕ) (a : Record) : String :=
  let summary := claimSummaryTrunc a.summary
  "\n" ++ toString idx ++ ". " ++ a.title ++
    (if a.source ≠ "" then " (" ++ a.source ++ ")" else "") ++
    (match a.published with
     | some p => " - " ++ strftimeYmd p
     | none => "") ++
    (if summary ≠ "" then "\n   " ++ summary else "") ++
    (if a.url ≠ "" then "\n   URL: " ++ a.url else "")

/-! ### Helper lemmas: substrings -/

theorem isPrefixOf_self_append (n b : List Char) : n.isPrefixOf (n ++ b) = true := by
  induction n with
  | nil => simp
  | cons c t ih => simp [List.isPrefixOf_cons₂, ih]

theorem isPrefixOf_extend {n l : List Char} (b : List Char)
    (h : n.isPrefixOf l = true) : n.isPrefixOf (l ++ b) = true := by
  induction n generalizing l with
  | nil => simp
  | cons c t ih =>
    cases l with
    | nil => simp at h
    | cons x xs =>
      simp only [List.isPrefixOf_cons₂, Bool.and_eq_true, beq_iff_eq] at h
      simp only [List.cons_append, List.isPrefixOf_cons₂, Bool.and_eq_true,
        beq_iff_eq]
      exact ⟨h.1, ih h.2⟩

theorem hasSub_of_isPrefixOf {hay needle : List Char}
    (h : needle.isPrefixOf hay = true) : hasSub hay needle = true := by
  cases hay with
  | nil =>
    cases needle with
    | nil => rfl
    | cons c t => simp at h
  | cons x xs => simp [hasSub, h]

theorem hasSub_nil_needle (l : List Char) : hasSub l [] = true := by
  induction l with
  | nil => rfl
  | cons c t ih => simp [hasSub]

theorem hasSub_append_left {a : List Char} (b : List Char) {n : List Char}
    (h : hasSub a n = true) : hasSub (a ++ b) n = true := by
  induction a with
  | nil =>
    cases n with
    | nil => exact hasSub_nil_needle b
    | cons c t => simp [hasSub] at h
  | cons x xs ih =>
    simp only [hasSub, Bool.or_eq_true] at h
    rcases h with h | h
    · simp only [List.cons_append, hasSub, Bool.or_eq_true]
      exact Or.inl (by simpa using isPrefixOf_extend b h)
    · simp only [List.cons_append, hasSub, Bool.or_eq_true]
      exact Or.inr (ih h)

theorem hasSub_append_right (a : List Char) {b n : List Char}
    (h : hasSub b n = true) : hasSub (a ++ b) n = true := by
  induction a with
  | nil => simpa using h
  | cons x xs ih => simp [hasSub, ih]

theorem hasSub_here (pre : List Char) {n : List Char} (post : List Char) :
    hasSub (pre ++ (n ++ post)) n = true :=
  hasSub_append_right pre (hasSub_of_isPrefixOf (isPrefixOf_self_append n post))

theorem hasSub_self (n : List Char) : hasSub n n = true := by
  simpa using hasSub_here [] (n := n) []

theorem data_append (a b : String) : (a ++ b).data = a.data ++ b.data := rfl

/-! ### Helper lemmas: join and enumerate -/

theorem strContains_joinSep (sep : String) {parts : List String} {p n : String}
    (hp : p ∈ parts) (h : strContains p n = true) :
    strContains (joinSep sep parts) n = true := by
  induction parts with
  | nil => cases hp
  | cons q rest ih =>
    cases rest with
    | nil =>
      rcases List.mem_singleton.mp hp with rfl
      simpa [joinSep] using h
    | cons q2 rest2 =>
      rcases List.mem_cons.mp hp with rfl | hp2
      · unfold strContains at h ⊢
        simp only [joinSep, data_append, List.append_assoc]
        exact hasSub_append_left _ h
      · unfold strContains at *
        simp only [joinSep, data_append, List.append_assoc]
        apply hasSub_append_right
        apply hasSub_append_right
        exact ih hp2

theorem enumFrom_mem {a : α} {l : List α} (h : a ∈ l) (n : ℕ) :
    ∃ i, (i, a) ∈ enumFrom n l := by
  induction l generalizing n with
  | nil => cases h
  | cons x xs ih =>
    rcases List.mem_cons.mp h with rfl | h2
    · exact ⟨n, List.mem_cons_self _ _⟩
    · rcases ih h2 (n + 1) with ⟨i, hi⟩
      exact ⟨i, List.mem_cons_of_mem _ hi⟩

/-! ### Helper lemmas: sort comparators -/

theorem rankLe_iff (a b : Record) :
    rankLe a b = true ↔ ¬ pairLt (pyKey a) (pyKey b) := by
  simp [rankLe]

theorem rankLe_trans (a b c : Record) :
    rankLe a b → rankLe b c → rankLe a c := by
  simp only [rankLe_iff]
  intro hxy hyz hxz
  have h1 : (pyKey b).1 ≤ (pyKey a).1 :=
    le_of_not_lt fun h => hxy (Or.inl h)
  have h2 : (pyKey c).1 ≤ (pyKey b).1 :=
    le_of_not_lt fun h => hyz (Or.inl h)
  rcases hxz with h | ⟨heq, hx2, hz2⟩
  · exact absurd h (not_lt.mpr (h2.trans h1))
  · have hba : (pyKey b).1 = (pyKey a).1 := le_antisymm h1 (heq ▸ h2)
    cases hy2 : (pyKey b).2 with
    | false => exact hyz (Or.inr ⟨heq ▸ hba, hy2, hz2⟩)
    | true => exact hxy (Or.inr ⟨hba.symm, hx2, hy2⟩)

theorem pairLt_asymm {x y : ℚ × Bool} (h : pairLt x y) : ¬ pairLt y x := by
  rcases h with h1 | ⟨heq, hx2, hy2⟩
  · rintro (h2 | ⟨heq2, _, _⟩)
    · exact absurd (h1.trans h2) (lt_irrefl _)
    · rw [heq2] at h1; exact lt_irrefl _ h1
  · rintro (h2 | ⟨heq2, hb2, ha2⟩)
    · rw [heq] at h2; exact lt_irrefl _ h2
    · simp [hx2] at ha2

theorem rankLe_total (a b : Record) : rankLe a b || rankLe b a := by
  by_cases h : pairLt (pyKey a) (pyKey b)
  · have hba : rankLe b a = true := (rankLe_iff b a).mpr (pairLt_asymm h)
    simp [hba]
  · simp [(rankLe_iff a b).mpr h]

theorem webSortLe_trans (a b c : Record) :
    webSortLe a b → webSortLe b c → webSortLe a c := by
  simp only [webSortLe, decide_eq_true_eq]
  exact fun h1 h2 => h2.trans h1

theorem webSortLe_total (a b : Record) : webSortLe a b || webSortLe b a := by
  simp only [webSortLe, Bool.or_eq_true, decide_eq_true_eq]
  exact (le_total (webSortKey b) (webSortKey a))

/-! ### Helper lemmas: dedup -/

theorem dedupeAux_eq_firstWins (l : List Record) :
    ∀ seen : List String,
      dedupeAux l seen =
        firstWinsDedupe recordKey (l.filter fun x => decide (recordKey x ∉ seen)) := by
  induction l with
  | nil => intro seen; simp [dedupeAux, firstWinsDedupe]
  | cons r rest ih =>
    intro seen
    by_cases hmem : recordKey r ∈ seen
    · have hfilter :
          ((r :: rest).filter fun x => decide (recordKey x ∉ seen)) =
            rest.filter fun x => decide (recordKey x ∉ seen) := by
        simp [List.filter_cons, hmem]
      rw [hfilter]
      simp only [dedupeAux]
      rw [if_pos (Or.inr hmem)]
      exact ih seen
    · have hfilter :
          ((r :: rest).filter fun x => decide (recordKey x ∉ seen)) =
            r :: rest.filter fun x => decide (recordKey x ∉ seen) := by
        simp [List.filter_cons, hmem]
      rw [hfilter]
      by_cases hempty : recordKey r = ""
      · simp only [dedupeAux]
        rw [if_pos (Or.inl hempty)]
        simp only [firstWinsDedupe]
        rw [if_pos hempty]
        exact ih seen
      · simp only [dedupeAux]
        rw [if_neg (by push_neg; exact ⟨hempty, hmem⟩)]
        simp only [firstWinsDedupe]
        rw [if_neg hempty]
        congr 1
        rw [ih (recordKey r :: seen)]
        congr 1
        rw [List.filter_filter]
        apply List.filter_congr
        intro x _
        rcases eq_or_ne (recordKey x) (recordKey r) with he | he
        · simp [he]
        · by_cases hs : recordKey x ∈ seen
          · simp [he, hs]
          · simp [he, hs]

theorem dedupe_records_eq_firstWins (l : List Record) :
    dedupe_records l = firstWinsDedupe recordKey l := by
  have h := dedupeAux_eq_firstWins l []
  simpa [dedupe_records] using h

/-! ### Helper lemmas: recency -/

theorem naive_as_utc (p : PyDateTime) :
    (if p.tzOffset = none then { p with tzOffset := some 0 } else p).utc = p.utc := by
  rcases p with ⟨w, o⟩
  cases o <;> simp [PyDateTime.utc]

theorem codeSnippetQuality_eq_claim (n : ℕ) :
    (if 100 ≤ n then (1 : ℚ) else if 50 ≤ n then (0.5 : ℚ) else 0) =
      claimSnippetQuality n := by
  unfold claimSnippetQuality
  split_ifs <;> first | rfl | omega

theorem recencyScore_eq_claim (now : ℚ) (pub : Option PyDateTime) (rd : ℤ) :
    recencyScore now pub (max 7 rd) = claimRecency now pub rd := by
  cases pub with
  | none => rfl
  | some p =>
    simp only [recencyScore, claimRecency]
    by_cases h : (((max 7 rd : ℤ) : ℚ)) ≤ max 0 ((now - p.utc) / 86400)
    · rw [if_pos h, if_neg (not_lt.mpr h)]
    · rw [if_neg h, if_pos (not_le.mp h)]

/-! ## Claim theorems -/

/-- C10: for every record, weight configuration and mode, a topic text that
is empty or whitespace-only earns an exact-phrase bonus of exactly 0 — the
bonus term of `score_record` is 0 and the score coincides with the score at
the empty topic text — even though the empty string is a substring of every
title; only a non-empty trimmed lowercased topic occurring in the lowercased
title can earn the 0.08 bonus. -/
theorem c10_whitespace_topic_no_bonus (now : ℚ) (r : Record)
    (topicTokens : Finset String) (topicText : String) (trusted : Finset String)
    (recencyDays : ℤ) (strict : Bool) (wRel wRec wSnip wDom pen : ℚ)
    (h : pyStrip topicText = "") :
    exactPhraseBoost topicText r.title = 0 ∧
      score_record now r topicTokens topicText trusted recencyDays strict
          wRel wRec wSnip wDom pen =
        score_record now r topicTokens "" trusted recencyDays strict
          wRel wRec wSnip wDom pen := by
  have hlow : pyLower "" = "" := by decide
  have htriv : pyStrip "" = "" := by decide
  have hb : ∀ t : String, pyStrip t = "" → ∀ s : String,
      exactPhraseBoost t s = 0 := by
    intro t ht s
    unfold exactPhraseBoost
    rw [ht, hlow]
    simp
  refine ⟨hb topicText h r.title, ?_⟩
  simp only [score_record]
  rw [hb topicText h r.title, hb "" htriv r.title]

/-- C10 witness: a whitespace-only topic at a concrete record. -/
theorem c10_whitespace_topic_no_bonus_witness :
    exactPhraseBoost "  " "AI news" = 0 ∧
      score_record 0 { title := "AI news" } ∅ "  " ∅ 0 false 0.6 0.2 0.1 0.1 0.35 =
        score_record 0 { title := "AI news" } ∅ "" ∅ 0 false 0.6 0.2 0.1 0.1 0.35 :=
  c10_whitespace_topic_no_bonus 0 { title := "AI news" } ∅ "  " ∅ 0 false
    0.6 0.2 0.1 0.1 0.35 (by decide)

/-- C6 counterexample: with the strict-no-overlap penalty weight set to 0 —
all weights held constant between the two calls — a record with zero
topic-token overlap scores the same in strict and non-strict mode, so the
claimed strict inequality fails. -/
theorem c6_counterexample :
    overlapCount ∅ {} = 0 ∧
      ¬(score_record 0 {} ∅ "" ∅ 0 true 0.6 0.2 0.1 0.1 0 <
        score_record 0 {} ∅ "" ∅ 0 false 0.6 0.2 0.1 0.1 0) := by
  have hov : overlapCount ∅ ({} : Record) = 0 := by simp [overlapCount]
  refine ⟨hov, ?_⟩
  have heq : score_record 0 {} ∅ "" ∅ 0 true 0.6 0.2 0.1 0.1 0 =
      score_record 0 {} ∅ "" ∅ 0 false 0.6 0.2 0.1 0.1 0 := by
    simp only [score_record, hov]
    norm_num
  rw [heq]
  exact lt_irrefl _

/-- C6 amended: for every record with zero topic-token overlap, with all
weights held constant and the strict-no-overlap penalty positive (its
default is 0.35), the strict-mode score is strictly below the non-strict
score. -/
theorem c6_strict_penalty (now : ℚ) (r : Record) (topicTokens : Finset String)
    (topicText : String) (trusted : Finset String) (recencyDays : ℤ)
    (wRel wRec wSnip wDom pen : ℚ) (hov : overlapCount topicTokens r = 0)
    (hpen : 0 < pen) :
    score_record now r topicTokens topicText trusted recencyDays true
        wRel wRec wSnip wDom pen <
      score_record now r topicTokens topicText trusted recencyDays false
        wRel wRec wSnip wDom pen := by
  simp only [score_record, hov]
  simp
  linarith

/-- C6 witness: the amended inequality at a concrete no-overlap record and
the default weights. -/
theorem c6_strict_penalty_witness :
    score_record 0 {} ∅ "" ∅ 0 true 0.6 0.2 0.1 0.1 0.35 <
      score_record 0 {} ∅ "" ∅ 0 false 0.6 0.2 0.1 0.1 0.35 :=
  c6_strict_penalty 0 {} ∅ "" ∅ 0 0.6 0.2 0.1 0.1 0.35 (by decide) (by norm_num)

/-- C5: the recency window is the identity for `days_back ≤ 0`; otherwise it
keeps exactly the records with no timestamp or with UTC-normalized timestamp
(a naive one read as UTC) at least `now - days_back` days, in order; in
particular a record published now survives and a record published
`days_back + 1` days ago is dropped. -/
theorem c5_recency_window (now : ℚ) (records : List Record) (d : ℤ) :
    (d ≤ 0 → apply_recency_window now records d = records) ∧
    (0 < d →
      apply_recency_window now records d =
        records.filter (claimRecencyKeep (now - (d : ℚ) * 86400))) ∧
    (0 < d → ∀ r ∈ records, r.published = some ⟨now, some 0⟩ →
      r ∈ apply_recency_window now records d) ∧
    (0 < d → ∀ r,
      r.published = some ⟨now - ((d : ℚ) + 1) * 86400, some 0⟩ →
      r ∉ apply_recency_window now records d) := by
  have hd : ∀ hlt : 0 < d,
      apply_recency_window now records d =
        records.filter (claimRecencyKeep (now - (d : ℚ) * 86400)) := by
    intro hlt
    unfold apply_recency_window
    rw [if_neg (not_le.mpr hlt)]
    apply List.filter_congr
    intro r _
    unfold claimRecencyKeep
    cases hp : r.published with
    | none => rfl
    | some p => simp [naive_as_utc]
  refine ⟨fun h => by simp [apply_recency_window, h], hd, ?_, ?_⟩
  · intro hlt r hr hp
    rw [hd hlt]
    refine List.mem_filter.mpr ⟨hr, ?_⟩
    have hdq : (1 : ℚ) ≤ (d : ℚ) := by exact_mod_cast hlt
    simp only [claimRecencyKeep, hp, PyDateTime.utc]
    simp only [Option.getD_some]
    rw [decide_eq_true_eq]
    push_cast
    nlinarith
  · intro hlt r hp hr
    rw [hd hlt] at hr
    have hpred := (List.mem_filter.mp hr).2
    have hdq : (1 : ℚ) ≤ (d : ℚ) := by exact_mod_cast hlt
    simp only [claimRecencyKeep, hp, PyDateTime.utc, Option.getD_some] at hpred
    rw [decide_eq_true_eq] at hpred
    push_cast at hpred
    nlinarith

/-- C5 witness: identity for a negative window; a record published now
survives a two-day window. -/
theorem c5_recency_window_witness :
    apply_recency_window 0 [{}] (-3) = [{}] ∧
      ({ published := some ⟨0, some 0⟩ } : Record) ∈
        apply_recency_window 0 [{ published := some ⟨0, some 0⟩ }] 2 :=
  ⟨(c5_recency_window 0 [{}] (-3)).1 (by norm_num),
    (c5_recency_window 0 [{ published := some ⟨0, some 0⟩ }] 2).2.2.1
      (by norm_num) _ (List.mem_singleton.mpr rfl) (by norm_num)⟩

/-- C8: the news search returns the empty list in each failure case — with
no configured client (missing API key) the provider outcome is never
consulted; a raised provider exception is caught and yields `[]`; a
provider response with a non-`"ok"` status yields zero results. -/
theorem c8_news_failure_semantics (now : ℚ) (topic : String) (maxResults : ℕ)
    (daysBack : ℤ) (strict : Bool) (allow block trusted : Finset String)
    (wRel wRec wSnip wDom pen : ℚ) :
    (∀ providerResult,
      searchRecentNews now false providerResult topic maxResults daysBack strict
        allow block trusted wRel wRec wSnip wDom pen = []) ∧
    (∀ e,
      searchRecentNews now true (.error e) topic maxResults daysBack strict
        allow block trusted wRel wRec wSnip wDom pen = []) ∧
    (∀ resp, resp.status ≠ "ok" →
      searchRecentNews now true (.ok resp) topic maxResults daysBack strict
        allow block trusted wRel wRec wSnip wDom pen = []) := by
  refine ⟨fun pr => rfl, fun e => rfl, fun resp h => ?_⟩
  simp [searchRecentNews, fetchNewsApiArticles, h]

/-- C8 witness: a concrete non-`"ok"` provider response yields `[]`. -/
theorem c8_news_failure_semantics_witness :
    searchRecentNews 0 true (.ok { status := "error", articles := [] }) "ai" 5 14
      false ∅ ∅ ∅ 0.6 0.2 0.1 0.1 0.35 = [] :=
  (c8_news_failure_semantics 0 "ai" 5 14 false ∅ ∅ ∅ 0.6 0.2 0.1 0.1 0.35).2.2
    _ (by decide)

/-! ### More helper lemmas -/

theorem pairLt_irrefl (x : ℚ × Bool) : ¬ pairLt x x := by
  rintro (h | ⟨_, h2, h3⟩)
  · exact lt_irrefl _ h
  · rw [h2] at h3; cases h3

theorem dedupeAux_sublist : ∀ (l : List Record) (seen : List String),
    (dedupeAux l seen).Sublist l := by
  intro l
  induction l with
  | nil => intro seen; simp [dedupeAux]
  | cons r rest ih =>
    intro seen
    simp only [dedupeAux]
    split_ifs with h
    · exact (ih seen).trans (List.sublist_cons_self r rest)
    · exact (ih _).cons₂ r

/-- C4 counterexample: a record whose url is present (`"/"`) but normalises
to the empty string is keyed by its trimmed title in the source — it
survives deduplication — whereas under the claim's key (`normalize_url(url)`
whenever a url is present) its key is empty and it is dropped. -/
theorem c4_counterexample :
    dedupe_records [{ url := "/", title := "A" }] ≠
      firstWinsDedupe recordKeyClaim [{ url := "/", title := "A" }] := by
  have hkey : recordKey { url := "/", title := "A" } = "A" := by decide
  have hclaim : recordKeyClaim { url := "/", title := "A" } = "" := by decide
  have h1 : dedupe_records [{ url := "/", title := "A" }] =
      [{ url := "/", title := "A" }] := by
    simp [dedupe_records, dedupeAux, hkey]
  have h2 : firstWinsDedupe recordKeyClaim [{ url := "/", title := "A" }] = [] := by
    rw [firstWinsDedupe, if_pos hclaim, firstWinsDedupe]
  rw [h1, h2]
  simp

/-- C4 amended: deduplication keeps exactly the first record per key and
discards every later record with the same key, drops records with an empty
key, and preserves first-seen order (the output is a sublist of the input)
— where the key is `normalize_url(url)` when that normalisation is
non-empty, and the trimmed title otherwise. -/
theorem c4_dedupe_first_wins (l : List Record) :
    dedupe_records l = firstWinsDedupe recordKey l ∧
      (dedupe_records l).Sublist l :=
  ⟨dedupe_records_eq_firstWins l, dedupeAux_sublist l []⟩

/-- C2 counterexample: a record with no published timestamp entering the
web path's recency filter is dropped, against the claim that on the web
path no surviving record is dropped for its timestamp and that a record
with no timestamp is not dropped for lacking one. -/
theorem c2_counterexample :
    ({ title := "x", url := "u" } : Record).published = none ∧
      ({ title := "x", url := "u" } : Record) ∉
        filterRecentArticles 0 [{ title := "x", url := "u" }] := by
  refine ⟨rfl, ?_⟩
  have h : List.filter (webRecentPred 0) [{ title := "x", url := "u" }] = [] := by
    simp [webRecentPred, List.filter]
  simp [filterRecentArticles, h]

/-- C2 amended: the web path applies a fixed seven-day recency window
before deduplication: a record survives `_filter_recent_articles` iff it
carries a timestamp whose UTC instant is within the last seven days —
records with no timestamp are dropped — and the survivors are ordered
newest-first by that timestamp. -/
theorem c2_web_recency_window (now : ℚ) (articles : List Record) :
    (∀ a, a ∈ filterRecentArticles now articles ↔
      a ∈ articles ∧ webRecentPred now a = true) ∧
    (filterRecentArticles now articles).Pairwise
      (fun a b => webSortKey b ≤ webSortKey a) := by
  constructor
  · intro a
    unfold filterRecentArticles
    rw [List.mem_mergeSort]
    exact List.mem_filter
  · unfold filterRecentArticles
    exact (List.sorted_mergeSort webSortLe_trans webSortLe_total _).imp
      fun h => by simpa [webSortLe] using h

theorem score_record_eq_claimAmended (now : ℚ) (r : Record)
    (topicTokens : Finset String) (topicText : String)
    (trusted : Finset String) (recencyDays : ℤ) (strict : Bool)
    (wRel wRec wSnip wDom pen : ℚ) :
    score_record now r topicTokens topicText trusted recencyDays strict
        wRel wRec wSnip wDom pen =
      scoreClaimC1Amended now r topicTokens topicText trusted recencyDays strict
        wRel wRec wSnip wDom pen := by
  simp only [score_record, scoreClaimC1Amended, exactPhraseBoost, overlapCount]
  rw [recencyScore_eq_claim, codeSnippetQuality_eq_claim]

/-- C1: `score_record` computes the §4.5 composite, with one amendment to
the claim's wording: the 0.08 exact-phrase bonus additionally requires the
trimmed lowercased topic to be non-empty (the claim's "appears verbatim as a
substring" clause holds vacuously for an empty topic, which the code does
not reward). -/
theorem c1_score_formula (now : ℚ) (r : Record) (topicTokens : Finset String)
    (topicText : String) (trusted : Finset String) (recencyDays : ℤ)
    (strict : Bool) (wRel wRec wSnip wDom pen : ℚ) :
    score_record now r topicTokens topicText trusted recencyDays strict
        wRel wRec wSnip wDom pen =
      scoreClaimC1Amended now r topicTokens topicText trusted recencyDays strict
        wRel wRec wSnip wDom pen :=
  score_record_eq_claimAmended now r topicTokens topicText trusted recencyDays
    strict wRel wRec wSnip wDom pen

/-- C1 counterexample: at an empty topic text the literal reading of the
claim's bonus clause awards 0.08 (the empty string occurs in every title),
but `score_record` awards no bonus, so the two totals differ. -/
theorem c1_counterexample :
    score_record 0 { title := "aa" } ∅ "" ∅ 0 false 0.6 0.2 0.1 0.1 0.35 ≠
      scoreClaimC1 0 { title := "aa" } ∅ "" ∅ 0 false 0.6 0.2 0.1 0.1 0.35 := by
  have h1 := score_record_eq_claimAmended 0 { title := "aa" } ∅ "" ∅ 0 false
    0.6 0.2 0.1 0.1 0.35
  have hb : strContains (pyLower "aa") (pyLower (pyStrip "")) = true := by decide
  have hb2 : pyLower (pyStrip "") = "" := by decide
  have hb3 : strContains (pyLower "aa") "" = true := by decide
  have h2 : scoreClaimC1 0 { title := "aa" } ∅ "" ∅ 0 false 0.6 0.2 0.1 0.1 0.35 =
      scoreClaimC1Amended 0 { title := "aa" } ∅ "" ∅ 0 false
        0.6 0.2 0.1 0.1 0.35 + 0.08 := by
    simp only [scoreClaimC1, scoreClaimC1Amended, hb, hb2, hb3]
    norm_num
  rw [h1, h2]
  intro h
  have : (0.08 : ℚ) ≠ 0 := by norm_num
  exact this (by linarith)

/-- C3: the ranking step stable-sorts descending by the pair
`(score, has-published-date)` — the sorted list is a permutation of the
input, pairwise non-increasing in the lexicographic pair key, and any two
records with equal keys keep their original relative order — then truncates
to at most `max_results` records and strips the transient score field from
every returned record. -/
theorem c3_rank_and_truncate (records : List Record) (n : ℕ) :
    records.Perm (records.mergeSort rankLe) ∧
    (records.mergeSort rankLe).Pairwise
      (fun a b => ¬ pairLt (pyKey a) (pyKey b)) ∧
    (∀ a b, List.Sublist [a, b] records → pyKey a = pyKey b →
      List.Sublist [a, b] (records.mergeSort rankLe)) ∧
    rank_and_truncate records n =
      ((records.mergeSort rankLe).take n).map stripTransient ∧
    (rank_and_truncate records n).length ≤ n ∧
    (∀ r ∈ rank_and_truncate records n, r.qualityScore = none) := by
  refine ⟨(List.mergeSort_perm records rankLe).symm, ?_, ?_, rfl, ?_, ?_⟩
  · exact (List.sorted_mergeSort rankLe_trans rankLe_total records).imp
      fun h => (rankLe_iff _ _).mp h
  · intro a b hsub hk
    refine List.pair_sublist_mergeSort rankLe_trans rankLe_total ?_ hsub
    exact (rankLe_iff a b).mpr (by rw [hk]; exact pairLt_irrefl _)
  · calc (rank_and_truncate records n).length
        = ((records.mergeSort rankLe).take n).length := by
          simp [rank_and_truncate]
      _ ≤ n := by simp
  · intro r hr
    simp only [rank_and_truncate, List.mem_map] at hr
    rcases hr with ⟨x, _, rfl⟩
    rfl

/-- C3 witness: the stability clause at two concrete records with equal
keys, both tie-broken pairs remaining in order. -/
theorem c3_rank_and_truncate_witness :
    List.Sublist [({} : Record), { title := "b" }]
      ([({} : Record), { title := "b" }].mergeSort rankLe) :=
  (c3_rank_and_truncate [{}, { title := "b" }] 5).2.2.1 {} { title := "b" }
    (List.Sublist.refl _) rfl

/-- C9 counterexample: the web formatter renders a 5-character summary as
`"Short..."` — first 200 characters plus an unconditional ellipsis — not
unmodified as the claimed truncation rule (197 + ellipsis only beyond 200
characters) would have it. -/
theorem c9_counterexample :
    webFormatNewsContext [{ summary := "Short" }] ≠
      webFormatClaim [{ summary := "Short" }] := by
  decide

/-- C9 amended: formatting the empty list gives each service's fixed
"no results" sentence; formatting a non-empty list contains every record's
title and, when present, its url, in both formatters; the news formatter
truncates a summary to its first 197 characters plus an ellipsis iff it is
longer than 200 characters and otherwise leaves it unmodified; the web
formatter instead always renders a non-empty summary as its first 200
characters followed by an ellipsis. -/
theorem c9_formatting (articles : List Record) :
    format_news_context [] = "No recent news found on this topic." ∧
    webFormatNewsContext [] = "No recent news found for this topic." ∧
    (∀ idx a, newsArticleText idx a = newsArticleTextClaim idx a) ∧
    (∀ idx (a : Record), a.summary ≠ "" →
      ("   Summary: " ++ pyTake a.summary 200 ++ "...") ∈ webArticleLines idx a) ∧
    (articles ≠ [] → ∀ a ∈ articles,
      strContains (format_news_context articles) a.title = true ∧
      (a.url ≠ "" → strContains (format_news_context articles) a.url = true) ∧
      strContains (webFormatNewsContext articles) a.title = true ∧
      (a.url ≠ "" → strContains (webFormatNewsContext articles) a.url = true)) := by
  refine ⟨rfl, rfl, fun idx a => rfl, fun idx a h => by simp [webArticleLines, h],
    fun hne a ha => ?_⟩
  obtain ⟨i, hi⟩ := enumFrom_mem ha 1
  have hpartN : newsArticleText i a ∈
      ("Recent news and headlines:" ::
        (enumFrom 1 articles).map fun p => newsArticleText p.1 p.2) :=
    List.mem_cons_of_mem _ (List.mem_map.mpr ⟨(i, a), hi, rfl⟩)
  have hnews : ∀ s : String, strContains (newsArticleText i a) s = true →
      strContains (format_news_context articles) s = true := by
    intro s hs
    unfold format_news_context
    rw [if_neg hne]
    exact strContains_joinSep _ hpartN hs
  have hweb : ∀ line : String, line ∈ webArticleLines i a →
      ∀ s : String, strContains line s = true →
      strContains (webFormatNewsContext articles) s = true := by
    intro line hline s hs
    unfold webFormatNewsContext
    rw [if_neg hne]
    refine strContains_joinSep _ ?_ hs
    exact List.mem_append_right _ (List.mem_flatMap.mpr ⟨(i, a), hi, hline⟩)
  refine ⟨?_, ?_, ?_, ?_⟩
  · apply hnews
    unfold strContains newsArticleText
    simp only [data_append, List.append_assoc]
    repeat first
      | exact hasSub_of_isPrefixOf (isPrefixOf_self_append _ _)
      | exact hasSub_self _
      | apply hasSub_append_right
  · intro hurl
    apply hnews
    unfold strContains newsArticleText
    simp only [hurl, if_true, ne_eq, not_false_iff]
    simp only [data_append, List.append_assoc]
    repeat first
      | exact hasSub_of_isPrefixOf (isPrefixOf_self_append _ _)
      | exact hasSub_self _
      | apply hasSub_append_right
  · refine hweb (toString i ++ ". " ++ a.title) (by simp [webArticleLines]) _ ?_
    unfold strContains
    simp only [data_append, List.append_assoc]
    repeat first
      | exact hasSub_of_isPrefixOf (isPrefixOf_self_append _ _)
      | exact hasSub_self _
      | apply hasSub_append_right
  · intro hurl
    refine hweb ("   URL: " ++ a.url) (by simp [webArticleLines, hurl]) _ ?_
    unfold strContains
    simp only [data_append, List.append_assoc]
    repeat first
      | exact hasSub_of_isPrefixOf (isPrefixOf_self_append _ _)
      | exact hasSub_self _
      | apply hasSub_append_right

/-- C9 witness: the containment clause at a concrete one-record list. -/
theorem c9_formatting_witness :
    strContains (format_news_context [{ title := "T", url := "u" }]) "T" = true ∧
      strContains (webFormatNewsContext [{ title := "T", url := "u" }]) "u" = true :=
  ⟨((c9_formatting [{ title := "T", url := "u" }]).2.2.2.2
      (by simp) _ (List.mem_singleton.mpr rfl)).1,
    ((c9_formatting [{ title := "T", url := "u" }]).2.2.2.2
      (by simp) _ (List.mem_singleton.mpr rfl)).2.2.2 (by simp)⟩

/-- C7: `parse_date_string` attempts, in order, ISO-8601 parsing on the
trimmed input with every `Z` replaced by `+00:00`, then the relative
`"<N> <unit> ago"` pattern with minute/hour/day/week/month/year weights
(month as 30 days, year as 365 days), then the literal formats
`"Mon DD, YYYY"`, `"Month DD, YYYY"` and `"YYYY-MM-DD"` — each literal
result made timezone-aware UTC — and returns none when nothing matches;
every produced timestamp has a well-defined UTC instant (a naive one is
read as UTC downstream). -/
theorem c7_parse_date_string (v : String) (now : PyDateTime) :
    (parse_date_string none now = none) ∧
    (parse_date_string (some "") now = none) ∧
    (∀ d, fromisoformat (pyReplaceChar 'Z' "+00:00" (pyStrip v)) = some d →
      parse_date_string (some v) now = some d) ∧
    (fromisoformat (pyReplaceChar 'Z' "+00:00" (pyStrip v)) = none →
      ∀ count unit, relSearch (pyStrip v).data = some (count, unit) →
        parse_date_string (some v) now =
          some (dtSubSeconds now ((count : ℚ) * relUnitSeconds unit))) ∧
    (fromisoformat (pyReplaceChar 'Z' "+00:00" (pyStrip v)) = none →
      relSearch (pyStrip v).data = none →
      parse_date_string (some v) now =
        (match strptimeMonthName monthAbbrs (pyStrip v) with
         | some d => some (setUtc d)
         | none =>
           match strptimeMonthName monthFulls (pyStrip v) with
           | some d => some (setUtc d)
           | none =>
             match strptimeYmd (pyStrip v) with
             | some d => some (setUtc d)
             | none => none)) ∧
    (relUnitSeconds "minute" = 60 ∧ relUnitSeconds "hour" = 3600 ∧
      relUnitSeconds "day" = 86400 ∧ relUnitSeconds "week" = 7 * 86400 ∧
      relUnitSeconds "month" = 30 * 86400 ∧
      relUnitSeconds "year" = 365 * 86400) ∧
    (∀ d : PyDateTime, (setUtc d).tzOffset = some 0) := by
  have hiso_empty : fromisoformat (pyReplaceChar 'Z' "+00:00" (pyStrip "")) =
      none := by decide
  have habbr_empty : strptimeMonthName monthAbbrs (pyStrip "") = none := by decide
  have hfull_empty : strptimeMonthName monthFulls (pyStrip "") = none := by decide
  have hymd_empty : strptimeYmd (pyStrip "") = none := by decide
  refine ⟨rfl, rfl, ?_, ?_, ?_, ?_, fun d => rfl⟩
  · intro d hd
    by_cases hv : v = ""
    · subst hv
      rw [hiso_empty] at hd
      cases hd
    · simp [parse_date_string, hv, hd]
  · intro hiso count unit hrel
    by_cases hv : v = ""
    · subst hv
      have h0 : relSearch (pyStrip "").data = none := by decide
      rw [h0] at hrel
      cases hrel
    · simp [parse_date_string, hv, hiso, hrel]
  · intro hiso hrel
    by_cases hv : v = ""
    · subst hv
      simp [parse_date_string, habbr_empty, hfull_empty, hymd_empty]
    · simp [parse_date_string, hv, hiso, hrel]
  · refine ⟨rfl, rfl, rfl,
      by rw [show relUnitSeconds "week" = 604800 from rfl]; norm_num,
      by rw [show relUnitSeconds "month" = 2592000 from rfl]; norm_num,
      by rw [show relUnitSeconds "year" = 31536000 from rfl]; norm_num⟩

/-- C7 witness: the relative branch at a concrete input — the ISO attempt
fails on `"3 days ago"`, the relative pattern matches with count 3 and unit
day, and the result is `now` minus three day-lengths. -/
theorem c7_parse_date_string_witness :
    parse_date_string (some "3 days ago") ⟨1000, some 0⟩ =
      some (dtSubSeconds ⟨1000, some 0⟩ ((3 : ℚ) * relUnitSeconds "day")) :=
  (c7_parse_date_string "3 days ago" ⟨1000, some 0⟩).2.2.2.1 (by decide) 3 "day"
    (by decide)
